import Mathlib

/-!
Verification of the Prettier-SQL formatting core: a shallow embedding of the
token model (src/core/token.ts) and the token-driven formatting engine
(Formatter), together with theorems settling the specification claims.

String manipulation is embedded at the character-list level so that every
operation is executable and amenable to kernel evaluation.  Components of the
repository whose source is not available (Tokenizer, Indentation, InlineBlock,
Params, utils) are modelled from the specification; each such definition is
marked in its doc comment.
-/

namespace PrettierSql

/-- The zero-width space character (U+200B) used for ten-space padding. -/
def ZWSc : Char := Char.ofNat 0x200B

/-- The zero-width space as a one-character string (token.ts, `ZWS`). -/
def ZWS : String := String.mk [ZWSc]

/-- The JavaScript whitespace class (chars matched by the regex class `\s`
and stripped by `String.prototype.trimEnd`).  U+200B is deliberately not
whitespace in JavaScript. -/
def jsWs (c : Char) : Bool :=
  c = ' ' || c = '\t' || c = '\n' || c = '\r' ||
  c = Char.ofNat 0x0B || c = Char.ofNat 0x0C ||
  c = Char.ofNat 0xA0 || c = Char.ofNat 0x1680 ||
  (0x2000 ≤ c.toNat && c.toNat ≤ 0x200A) ||
  c = Char.ofNat 0x2028 || c = Char.ofNat 0x2029 ||
  c = Char.ofNat 0x202F || c = Char.ofNat 0x205F ||
  c = Char.ofNat 0x3000 || c = Char.ofNat 0xFEFF

/-- Characters removed by the `trimSpacesEnd` util: plain space and tab. -/
def spaceTab (c : Char) : Bool := c = ' ' || c = '\t'

/-- Drop the longest suffix of `s` whose characters all satisfy `p`. -/
def dropTrailing (p : Char → Bool) (s : String) : String :=
  String.mk ((s.data.reverse.dropWhile p).reverse)

/-- Drop the longest prefix of `s` whose characters all satisfy `p`. -/
def dropLeading (p : Char → Bool) (s : String) : String :=
  String.mk (s.data.dropWhile p)

/-- Modelled from the spec: the `trimSpacesEnd` helper of the missing
`utils` module, which removes trailing spaces and tabs (but not newlines,
since `addNewline` tests for a trailing newline after calling it). -/
def trimSpacesEnd (s : String) : String := dropTrailing spaceTab s

/-- JavaScript `String.prototype.trimEnd`: strips all trailing JS whitespace. -/
def jsTrimEnd (s : String) : String := dropTrailing jsWs s

/-- `c` repeated `n` times as a string. -/
def repeatChar (c : Char) (n : Nat) : String := String.mk (List.replicate n c)

/-- `s` repeated `n` times (JavaScript `String.prototype.repeat`). -/
def repeatStr (s : String) (n : Nat) : String :=
  match n with
  | 0 => ""
  | n + 1 => s ++ repeatStr s n

/-- Whether `suf` is a suffix of `s`. -/
def endsWithStr (s suf : String) : Bool := suf.data.isSuffixOf s.data

/-- The last character of a string, if any. -/
def lastChar (s : String) : Option Char := s.data.getLast?

/-- Whether the string ends with a newline character. -/
def endsWithNl (s : String) : Bool := lastChar s = some '\n'

/-- Whether the string ends with a comma (the `/.*,$/` line test). -/
def endsWithComma (s : String) : Bool := lastChar s = some ','

/-- Lower-case a character list (ASCII, as used for SQL keywords). -/
def lcList (l : List Char) : List Char := l.map Char.toLower

/-- Case-insensitive equality of strings (ASCII case folding). -/
def ciEq (a b : String) : Bool := lcList a.data = lcList b.data

/-- JavaScript `toUpperCase` restricted to ASCII letters. -/
def jsToUpper (s : String) : String := String.mk (s.data.map Char.toUpper)

/-- JavaScript `toLowerCase` restricted to ASCII letters. -/
def jsToLower (s : String) : String := String.mk (s.data.map Char.toLower)

/-- Whether `sub` occurs as a contiguous sublist of `l`. -/
def listContainsSub (l sub : List Char) : Bool :=
  sub.isPrefixOf l ||
    match l with
    | [] => false
    | _ :: t => listContainsSub t sub

/-- Case-insensitive substring test (the `/JOIN/i.test` check). -/
def ciContains (s sub : String) : Bool :=
  listContainsSub (lcList s.data) (lcList sub.data)

/-- Split a character list at every occurrence of `sep`. -/
def splitCharList (sep : Char) : List Char → List (List Char)
  | [] => [[]]
  | c :: rest =>
    let r := splitCharList sep rest
    if c = sep then [] :: r
    else
      match r with
      | [] => [[c]]
      | h :: t => (c :: h) :: t

/-- Split a string into lines (JavaScript `split('\n')`). -/
def splitLines (s : String) : List String :=
  (splitCharList '\n' s.data).map String.mk

/-- Join lines with newlines (JavaScript `join('\n')`). -/
def joinLines : List String → String
  | [] => ""
  | [a] => a
  | a :: rest => a ++ "\n" ++ joinLines rest

/-- Replace every zero-width space with an ordinary space
(the `replace(new RegExp(ZWS, 'ugim'), ' ')` at the end of
`getFormattedQueryFromTokens`). -/
def replaceZWS (s : String) : String :=
  String.mk (s.data.map fun c => if c = ZWSc then ' ' else c)

/-- Collapse every maximal run of whitespace into a single space
(`equalizeWhitespace`, the `replace(/\s+/gu, ' ')`). -/
def eqWsAux : List Char → List Char
  | [] => []
  | c :: cs =>
    if jsWs c then
      match cs with
      | [] => [' ']
      | d :: ds => if jsWs d then eqWsAux (d :: ds) else ' ' :: eqWsAux (d :: ds)
    else c :: eqWsAux cs

def equalizeWhitespace (s : String) : String := String.mk (eqWsAux s.data)

/-- Modelled from the spec: the `maxLength` helper of the missing `utils`
module, the maximum line length of a list of lines. -/
def maxLength (lines : List String) : Nat :=
  lines.foldl (fun acc l => max acc l.length) 0

/-! ## Token model (src/core/token.ts) -/

/-- The closed set of token kinds (`TokenType`). -/
inductive TokenType where
  | WORD
  | STRING
  | RESERVED_KEYWORD
  | RESERVED_LOGICAL_OPERATOR
  | RESERVED_DEPENDENT_CLAUSE
  | RESERVED_BINARY_COMMAND
  | RESERVED_COMMAND
  | OPERATOR
  | BLOCK_START
  | BLOCK_END
  | LINE_COMMENT
  | BLOCK_COMMENT
  | NUMBER
  | PLACEHOLDER
  deriving DecidableEq, Repr

open TokenType

/-- A lexical token.  `whitespaceBefore` is the exact original leading
whitespace recorded by the tokenizer; `key` is the name of a named
placeholder. -/
structure Token where
  value : String
  type : TokenType
  key : Option String := none
  whitespaceBefore : String := ""
  deriving DecidableEq, Repr

/-- `isReserved` from token.ts. -/
def isReserved (t : Token) : Bool :=
  t.type = RESERVED_KEYWORD || t.type = RESERVED_LOGICAL_OPERATOR ||
  t.type = RESERVED_DEPENDENT_CLAUSE || t.type = RESERVED_COMMAND ||
  t.type = RESERVED_BINARY_COMMAND

/-- `isCommand` from token.ts; on an absent token (undefined) it is false. -/
def isCommand (t : Option Token) : Bool :=
  match t with
  | none => false
  | some t => t.type = RESERVED_COMMAND || t.type = RESERVED_BINARY_COMMAND

/-- A character accepted as padding by `testToken`: zero-width space or
JS whitespace (the `[​\s]` class). -/
def padChar (c : Char) : Bool := c = ZWSc || jsWs c

/-- `testToken` from token.ts: same type, and the value, once stripped of
zero-width-space/whitespace padding, equals the expected word
case-insensitively (the regex `^[zws\s]*VALUE[zws\s]*$` with flag i). -/
def testToken (ty : TokenType) (v : String) (t : Option Token) : Bool :=
  match t with
  | none => false
  | some t =>
    t.type = ty &&
    ciEq (String.mk ((t.value.data.dropWhile padChar).reverse.dropWhile padChar |>.reverse)) v

def isTokenAS (t : Option Token) : Bool := testToken RESERVED_KEYWORD "AS" t
def isTokenAND (t : Option Token) : Bool := testToken RESERVED_LOGICAL_OPERATOR "AND" t
def isTokenBETWEEN (t : Option Token) : Bool := testToken RESERVED_KEYWORD "BETWEEN" t
def isTokenCASE (t : Option Token) : Bool := testToken BLOCK_START "CASE" t
def isTokenEND (t : Option Token) : Bool := testToken BLOCK_END "END" t
def isTokenFROM (t : Option Token) : Bool := testToken RESERVED_COMMAND "FROM" t
def isTokenLIMIT (t : Option Token) : Bool := testToken RESERVED_COMMAND "LIMIT" t
def isTokenSELECT (t : Option Token) : Bool := testToken RESERVED_COMMAND "SELECT" t

/-! ## Configuration (FormatOptions and the enums from types.ts) -/

inductive KeywordMode where
  | standard
  | tenSpaceLeft
  | tenSpaceRight
  deriving DecidableEq, Repr

inductive AliasMode where
  | always
  | select
  | never
  deriving DecidableEq, Repr

inductive CommaPosition where
  | before
  | after
  | tabular
  deriving DecidableEq, Repr

/-- The newline policy: a mode or a numeric item-count threshold. -/
inductive NewlineOpt where
  | always
  | never
  | lineWidth
  | itemCount (n : Nat)
  deriving DecidableEq, Repr

structure ParenOptions where
  openParenNewline : Bool
  closeParenNewline : Bool
  deriving DecidableEq, Repr

/-- Modelled from the spec: the parameter store of the missing `Params`
module (§4.4): positional values consumed in encounter order plus a
name-to-value mapping; a missing value degrades to the original
placeholder text. -/
structure Params where
  positional : List String := []
  idx : Nat := 0
  named : List (String × String) := []
  deriving DecidableEq, Repr

/-- Resolve a placeholder token, consuming a positional slot when the
token has no key. -/
def Params.get (p : Params) (t : Token) : String × Params :=
  match t.key with
  | some k => (((p.named.lookup k).getD t.value), p)
  | none => (((p.positional.get? p.idx).getD t.value), { p with idx := p.idx + 1 })

/-- `FormatOptions` as consumed by the Formatter constructor. -/
structure FormatOptions where
  indent : String := "  "
  uppercase : Bool := true
  keywordPosition : KeywordMode := KeywordMode.standard
  newline : NewlineOpt := NewlineOpt.always
  breakBeforeBooleanOperator : Bool := false
  aliasAs : AliasMode := AliasMode.select
  tabulateAlias : Bool := false
  commaPosition : CommaPosition := CommaPosition.after
  parenOptions : ParenOptions := ⟨false, false⟩
  lineWidth : Nat := 50
  linesBetweenQueries : Nat := 1
  denseOperators : Bool := false
  semicolonNewline : Bool := false
  params : Params := {}
  deriving DecidableEq, Repr

/-- The derived `tenSpace` flag set by the constructor. -/
def FormatOptions.tenSpace (cfg : FormatOptions) : Bool :=
  cfg.keywordPosition = KeywordMode.tenSpaceLeft ||
  cfg.keywordPosition = KeywordMode.tenSpaceRight

/-! ## Indentation tracker -/

/-- Modelled from the spec: the missing `Indentation` module (§3, §4.2):
two independent saturating depth counters, one for top-level clauses and
one for parenthesised blocks. -/
structure Indentation where
  topLevel : Nat := 0
  block : Nat := 0
  deriving DecidableEq, Repr

def Indentation.increaseTopLevel (i : Indentation) : Indentation :=
  { i with topLevel := i.topLevel + 1 }

def Indentation.decreaseTopLevel (i : Indentation) : Indentation :=
  { i with topLevel := i.topLevel - 1 }

def Indentation.increaseBlockLevel (i : Indentation) : Indentation :=
  { i with block := i.block + 1 }

def Indentation.decreaseBlockLevel (i : Indentation) : Indentation :=
  { i with block := i.block - 1 }

def Indentation.resetIndentation : Indentation := {}

/-- `getIndent`: the indent unit repeated once per depth level (§3:
`indentString × (top-level depth + block depth)`). -/
def Indentation.getIndent (i : Indentation) (indent : String) : String :=
  repeatStr indent (i.topLevel + i.block)

/-! ## Inline-block detector -/

/-- Modelled from the spec: the missing `InlineBlock` module (§3, §4.3):
a single active-block nesting counter; nested parentheses inside an active
inline block join the same inline run. -/
structure InlineBlock where
  level : Nat := 0
  deriving DecidableEq, Repr

/-- A token kind that forbids inline rendering (§4.3: a top-level command,
binary command, or line comment in the span). -/
def forbidsInline (t : Token) : Bool :=
  t.type = RESERVED_COMMAND || t.type = RESERVED_BINARY_COMMAND ||
  t.type = LINE_COMMENT

/-- Modelled from the spec (§4.3): scan forward from the BLOCK_START at
`index` to its matching BLOCK_END with a depth counter; the block is
inline-eligible iff no token of the span is forbidden and the flattened
width of the span stays within the line-width budget. -/
def isInlineBlock (lineWidth : Nat) (tokens : List Token) (index : Nat) : Bool :=
  go (tokens.drop index) 0 0
where
  go : List Token → Nat → Nat → Bool
    | [], _, _ => false
    | t :: rest, depth, width =>
      let width := width + t.value.length
      if width > lineWidth then false
      else if forbidsInline t then false
      else if t.type = BLOCK_START then go rest (depth + 1) width
      else if t.type = BLOCK_END then
        if depth = 1 then true else go rest (depth - 1) width
      else go rest depth width

def InlineBlock.isActive (b : InlineBlock) : Bool := b.level > 0

/-- `beginIfPossible`: open a new inline block at an eligible BLOCK_START,
or deepen the active one. -/
def InlineBlock.beginIfPossible (b : InlineBlock) (lineWidth : Nat)
    (tokens : List Token) (index : Nat) : InlineBlock :=
  if b.level > 0 then { level := b.level + 1 }
  else if isInlineBlock lineWidth tokens index then { level := 1 }
  else b

def InlineBlock.close (b : InlineBlock) : InlineBlock := { level := b.level - 1 }

/-! ## Formatter state -/

/-- The mutable state of one `Formatter` run: configuration plus the
cursor, depth counters, inline-block record, parameter store, the token
sequence itself (tokens are updated in place by `tenSpacedToken`), and the
per-clause wrap flag. -/
structure FmtState where
  cfg : FormatOptions
  currentNewline : Bool := true
  indentation : Indentation := {}
  inlineBlock : InlineBlock := {}
  params : Params := {}
  previousReservedToken : Option Token := none
  withinSelect : Bool := false
  tokens : List Token := []
  index : Nat := 0

/-- `tokenLookBehind(n)`: the token `n` before the cursor, if any. -/
def FmtState.tokenLookBehind (st : FmtState) (n : Nat := 1) : Option Token :=
  if st.index < n then none else st.tokens.get? (st.index - n)

/-- `tokenLookAhead(n)`: the token `n` after the cursor, if any. -/
def FmtState.tokenLookAhead (st : FmtState) (n : Nat := 1) : Option Token :=
  st.tokens.get? (st.index + n)

/-- `show`: convert a token to output text, applying the configured keyword
casing to reserved words and block tokens and leaving every other token
untouched. -/
def showTok (cfg : FormatOptions) (t : Token) : String :=
  if isReserved t || t.type = BLOCK_START || t.type = BLOCK_END then
    if cfg.uppercase then jsToUpper t.value else jsToLower t.value
  else t.value

/-- `addNewline`: trim trailing spaces, ensure a trailing newline, then
append the current indent. -/
def addNewline (st : FmtState) (q : String) : String :=
  let q := trimSpacesEnd q
  let q := if endsWithNl q then q else q ++ "\n"
  q ++ st.indentation.getIndent st.cfg.indent

/-- `tenSpacedToken`: in the ten-space keyword-alignment modes, pad the
token value to nine characters with zero-width spaces (splitting long
multi-word keywords); the token value is rewritten, the kind never. -/
def tenSpacedToken (cfg : FormatOptions) (t : Token) : Token :=
  if cfg.tenSpace then
    let v := t.value
    let parts : List String :=
      if v.length ≥ 10 && v.data.contains ' ' then v.splitOn " " else [v]
    let bufferItem := parts.headD v
    let tail := parts.tail
    let buffered :=
      if cfg.keywordPosition = KeywordMode.tenSpaceLeft then
        bufferItem ++ repeatStr ZWS (9 - bufferItem.length)
      else
        repeatStr ZWS (9 - bufferItem.length) ++ bufferItem
    { t with value := buffered ++ String.join (tail.map (fun s => " " ++ s)) }
  else t

/-! ## Newline-decision heuristic (`checkNewline`) -/

/-- A clause boundary for the forward scan: the next top-level command,
binary command, or statement separator. -/
def isClauseBoundary (t : Token) : Bool :=
  t.type = RESERVED_COMMAND || t.type = RESERVED_BINARY_COMMAND || t.value = ";"

/-- The clause span scanned by `checkNewline`: the tokens after `index` up
to (exclusive) the next boundary.  When no boundary follows, the slice end
is the `findIndex` result `-1`, so the last token is dropped. -/
def nextClauseTokens (tokens : List Token) (index : Nat) : List Token :=
  let tail := tokens.drop (index + 1)
  if tail.isEmpty then tail
  else
    match tail.findIdx? isClauseBoundary with
    | some i => tail.take i
    | none => tail.take (tail.length - 1)

/-- A BLOCK_START token whose value is longer than one character, i.e. a
CASE keyword rather than a parenthesis. -/
def isCaseStart (t : Token) : Bool :=
  t.type = BLOCK_START && t.value.length > 1

/-- The item count computed by `checkNewline`: 1 plus the commas counted
while the `inParen` boolean flag is down; BLOCK_START raises the flag and
BLOCK_END lowers it. -/
def clauseNumItems (nextTokens : List Token) : Nat :=
  (nextTokens.foldl
    (fun acc t =>
      if t.value = "," && !acc.2 then (acc.1 + 1, acc.2)
      else if t.type = BLOCK_START then (acc.1, true)
      else if t.type = BLOCK_END then (acc.1, false)
      else acc)
    ((1 : Nat), false)).1

/-- The width the clause would occupy rendered on one line: the command
token's original leading whitespace and value, a space, then the span
values with a space appended after each comma. -/
def clauseInlineWidth (tokens : List Token) (index : Nat)
    (nextTokens : List Token) : Nat :=
  let cmd := (tokens.get? index).getD { value := "", type := WORD }
  (cmd.whitespaceBefore ++ cmd.value ++ " " ++
    String.join (nextTokens.map fun t => if t.value = "," then t.value ++ " " else t.value)).length

/-- `checkNewline`: decide whether the clause anchored at the command token
at `index` should wrap. -/
def checkNewline (st : FmtState) (index : Nat) : Bool :=
  let nextTokens := nextClauseTokens st.tokens index
  if st.cfg.newline = NewlineOpt.always ||
      (st.withinSelect && nextTokens.any isCaseStart) then
    true
  else if st.cfg.newline = NewlineOpt.never then
    false
  else
    let numItems := clauseNumItems nextTokens
    let inlineWidth := clauseInlineWidth st.tokens index nextTokens
    match st.cfg.newline with
    | NewlineOpt.lineWidth => inlineWidth > st.cfg.lineWidth
    | NewlineOpt.itemCount n => numItems > n || inlineWidth > st.cfg.lineWidth
    | _ => true

/-! ## Per-kind formatting branches -/

/-- The `preserve` argument of `formatWithSpaces`. -/
inductive Preserve where
  | before
  | after
  | both
  deriving DecidableEq

/-- `formatWithSpaces`: append the token with a following space, trimming
the query end only when spacing before the token is not preserved. -/
def formatWithSpaces (cfg : FormatOptions) (t : Token) (q : String)
    (preserve : Preserve := Preserve.both) : String :=
  let before := if preserve = Preserve.after then trimSpacesEnd q else q
  let after := if preserve = Preserve.before then "" else " "
  before ++ showTok cfg t ++ after

/-- `formatWithoutSpaces`: append the token directly after trimming. -/
def formatWithoutSpaces (cfg : FormatOptions) (t : Token) (q : String) : String :=
  trimSpacesEnd q ++ showTok cfg t

/-- `indentComment`: re-indent the continuation lines of a block comment. -/
def indentCommentAux (ind : String) : List Char → List Char
  | [] => []
  | c :: cs =>
    if c = '\n' then
      '\n' :: (ind.data ++ (' ' :: indentCommentAux ind (cs.dropWhile spaceTab)))
    else c :: indentCommentAux ind cs
termination_by l => l.length
decreasing_by
  all_goals simp only [List.length_cons]
  · exact Nat.lt_succ_of_le (List.dropWhile_suffix _).length_le
  · exact Nat.lt_succ_self _

def indentComment (st : FmtState) (comment : String) : String :=
  String.mk (indentCommentAux (st.indentation.getIndent st.cfg.indent) comment.data)

def formatLineComment (st : FmtState) (t : Token) (q : String) : String :=
  addNewline st (q ++ showTok st.cfg t)

def formatBlockComment (st : FmtState) (t : Token) (q : String) : String :=
  addNewline st (addNewline st q ++ indentComment st t.value)

/-- `formatCommand`: newline before the command, adjust the top-level
depth, emit the keyword, then a newline or space per the cached wrap flag. -/
def formatCommand (st : FmtState) (t : Token) (q : String) : FmtState × String :=
  let st := { st with indentation := st.indentation.decreaseTopLevel }
  let q := addNewline st q
  let st :=
    if st.cfg.tenSpace then
      if (st.tokenLookAhead 1).map (·.value) ≠ some "(" then
        { st with indentation := st.indentation.increaseTopLevel }
      else st
    else if ¬((st.tokenLookAhead 1).map (·.value) = some "(" && isTokenFROM (some t)) then
      { st with indentation := st.indentation.increaseTopLevel }
    else st
  let q := q ++ equalizeWhitespace (showTok st.cfg t)
  let q := if st.currentNewline && !st.cfg.tenSpace then addNewline st q else q ++ " "
  (st, q)

/-- `formatBinaryCommand`: JOIN keeps the next token inline; set operators
force a newline after and decrease the indent first. -/
def formatBinaryCommand (st : FmtState) (t : Token) (q : String) : FmtState × String :=
  let isJoin := ciContains t.value "JOIN"
  let st :=
    if !isJoin || st.cfg.tenSpace then
      { st with indentation := st.indentation.decreaseTopLevel }
    else st
  let q := addNewline st q ++ equalizeWhitespace (showTok st.cfg t)
  (st, if isJoin then q ++ " " else addNewline st q)

/-- `formatKeyword`: emit a reserved keyword, skipping an `AS` when the
alias configuration says to. -/
def formatKeyword (st : FmtState) (t : Token) (q : String) : String :=
  if isTokenAS (some t) &&
      (st.cfg.aliasAs = AliasMode.never ||
        (st.cfg.aliasAs = AliasMode.select &&
          (st.tokenLookBehind 1).map (·.value) = some ")" &&
          !st.withinSelect &&
          (st.tokenLookAhead 1).map (·.value) ≠ some "(")) then
    q
  else formatWithSpaces st.cfg t q

/-- `formatDependentClause`: always a preceding newline. -/
def formatDependentClause (st : FmtState) (t : Token) (q : String) : String :=
  addNewline st q ++ equalizeWhitespace (showTok st.cfg t) ++ " "

/-- `formatLogicalOperator`: `AND` directly after a BETWEEN operand stays
infix; otherwise break before or after the operator when the clause wraps. -/
def formatLogicalOperator (st : FmtState) (t : Token) (q : String) : FmtState × String :=
  if isTokenAND (some t) && isTokenBETWEEN (st.tokenLookBehind 2) then
    (st, formatWithSpaces st.cfg t q)
  else
    let st :=
      if st.cfg.tenSpace then
        { st with indentation := st.indentation.decreaseTopLevel }
      else st
    if st.cfg.breakBeforeBooleanOperator then
      (st, (if st.currentNewline then addNewline st q else q) ++
        equalizeWhitespace (showTok st.cfg t) ++ " ")
    else
      let q := q ++ showTok st.cfg t
      (st, if st.currentNewline then addNewline st q else q)

/-- `formatBlockStart`: CASE is an inline keyword; parentheses trim or keep
the preceding space, may activate an inline block, and otherwise open an
indented block on a new line. -/
def formatBlockStart (st : FmtState) (t : Token) (q : String) : FmtState × String :=
  let behindPreserves :=
    match st.tokenLookBehind 1 with
    | some b => b.type = BLOCK_START || b.type = LINE_COMMENT || b.type = OPERATOR
    | none => false
  let p : FmtState × String :=
    if isTokenCASE (some t) then
      (st, formatWithSpaces st.cfg t q)
    else
      let q :=
        if t.whitespaceBefore.length = 0 && !behindPreserves then trimSpacesEnd q
        else if !st.cfg.parenOptions.openParenNewline then jsTrimEnd q ++ " "
        else q
      let q := q ++ showTok st.cfg t
      ({ st with inlineBlock := st.inlineBlock.beginIfPossible st.cfg.lineWidth st.tokens st.index }, q)
  let st := p.1
  let q := p.2
  if !st.inlineBlock.isActive then
    let st := { st with indentation := st.indentation.increaseBlockLevel }
    let q :=
      if !isTokenCASE (some t) || st.cfg.newline = NewlineOpt.always then
        addNewline st q
      else q
    (st, q)
  else (st, q)

/-- `formatBlockEnd`: close an active inline block inline, otherwise
dedent and place the closer per the parenthesis-newline configuration. -/
def formatBlockEnd (st : FmtState) (t : Token) (q : String) : FmtState × String :=
  if st.inlineBlock.isActive then
    ({ st with inlineBlock := st.inlineBlock.close },
      formatWithSpaces st.cfg t q Preserve.after)
  else
    let st := { st with indentation := st.indentation.decreaseBlockLevel }
    let q :=
      if st.cfg.tenSpace then addNewline st q ++ st.cfg.indent
      else if st.cfg.parenOptions.closeParenNewline then addNewline st q
      else jsTrimEnd q ++ " "
    (st, formatWithSpaces st.cfg t q)

/-- `formatPlaceholder`: the resolved substitution followed by a space. -/
def formatPlaceholder (st : FmtState) (t : Token) (q : String) : FmtState × String :=
  let p := st.params.get t
  ({ st with params := p.2 }, q ++ p.1 ++ " ")

/-- `formatComma`: emit `, ` and start a new line unless inside an inline
block, after LIMIT, or in a clause decided not to wrap. -/
def formatComma (st : FmtState) (t : Token) (q : String) : String :=
  let q := trimSpacesEnd q ++ showTok st.cfg t ++ " "
  if st.inlineBlock.isActive then q
  else if isTokenLIMIT st.previousReservedToken then q
  else if st.currentNewline then addNewline st q
  else q

/-- `formatQuerySeparator`: reset the indentation and append the
configured blank lines after the semicolon (`linesBetweenQueries || 1`). -/
def formatQuerySeparator (st : FmtState) (t : Token) (q : String) : FmtState × String :=
  let st := { st with indentation := Indentation.resetIndentation }
  let q := trimSpacesEnd q
  let q :=
    if st.cfg.semicolonNewline then
      (q ++ "\n") ++ (if st.cfg.tenSpace then st.cfg.indent else "")
    else q
  (st, q ++ showTok st.cfg t ++ repeatStr "\n" (max st.cfg.linesBetweenQueries 1 + 1))

/-- `formatOperator`: dispatch to the comma/separator handlers, handle the
bracket-adjacent and punctuation operators, then dense or spaced output. -/
def formatOperator (st : FmtState) (t : Token) (q : String) : FmtState × String :=
  if t.value = "," then (st, formatComma st t q)
  else if t.value = ";" then formatQuerySeparator st t q
  else if t.value = "$" || t.value = "[" then
    (st, formatWithSpaces st.cfg t q Preserve.before)
  else if t.value = ":" || t.value = "]" then
    (st, formatWithSpaces st.cfg t q Preserve.after)
  else if t.value = "." || t.value = "\x7b" || t.value = "\x7d" || t.value = "`" then
    (st, formatWithoutSpaces st.cfg t q)
  else if st.cfg.denseOperators &&
      (st.tokenLookBehind 1).map (·.type) ≠ some RESERVED_COMMAND then
    (st, formatWithoutSpaces st.cfg t q)
  else (st, formatWithSpaces st.cfg t q)

/-- `formatAliases`: insert an `AS` keyword before a WORD that is a table
or select-column alias without one. -/
def formatAliases (st : FmtState) (t : Token) (q : String) : String :=
  let prevToken := st.tokenLookBehind 1
  let nextToken := st.tokenLookAhead 1
  let asToken : Token :=
    { value := if st.cfg.uppercase then "AS" else "as", type := RESERVED_KEYWORD }
  let missingTableAlias :=
    st.cfg.aliasAs = AliasMode.always && t.type = WORD &&
    prevToken.map (·.value) = some ")"
  let missingSelectColumnAlias :=
    st.withinSelect && t.type = WORD &&
    (isTokenEND prevToken ||
      (prevToken.map (·.type) = some WORD &&
        (nextToken.map (·.value) = some "," || isCommand nextToken)))
  if missingTableAlias || missingSelectColumnAlias then
    formatWithSpaces st.cfg asToken q
  else q

/-! ## The main token loop (`getFormattedQueryFromTokens`) -/

/-- The reserved-token pre-processing at the top of the loop body:
ten-space padding rewrites the stored token in place, and
`previousReservedToken` and `withinSelect` are updated. -/
def fmtStepPre (st : FmtState) : FmtState × Token :=
  let tok0 := (st.tokens.get? st.index).getD { value := "", type := WORD }
  if isReserved tok0 then
    let token := if tok0.type ≠ RESERVED_KEYWORD then tenSpacedToken st.cfg tok0 else tok0
    let st := { st with
      previousReservedToken := some token,
      tokens := st.tokens.set st.index token }
    let st :=
      if token.type = RESERVED_COMMAND then
        { st with withinSelect := isTokenSELECT (some token) }
      else st
    (st, token)
  else (st, tok0)

/-- The per-kind dispatch of the loop body: the if/else chain over the
(mutually exclusive) token kinds, as a match over the closed kind set. -/
def fmtDispatch (st : FmtState) (token : Token) (q : String) : FmtState × String :=
  match token.type with
  | LINE_COMMENT => (st, formatLineComment st token q)
  | BLOCK_COMMENT => (st, formatBlockComment st token q)
  | RESERVED_COMMAND =>
    let st := { st with currentNewline := checkNewline st st.index }
    formatCommand st token q
  | RESERVED_BINARY_COMMAND => formatBinaryCommand st token q
  | RESERVED_DEPENDENT_CLAUSE => (st, formatDependentClause st token q)
  | RESERVED_LOGICAL_OPERATOR => formatLogicalOperator st token q
  | RESERVED_KEYWORD =>
    ({ st with previousReservedToken := some token }, formatKeyword st token q)
  | BLOCK_START => formatBlockStart st token q
  | BLOCK_END => formatBlockEnd st token q
  | PLACEHOLDER => formatPlaceholder st token q
  | OPERATOR => formatOperator st token q
  | _ =>
    let q := if st.cfg.aliasAs ≠ AliasMode.never then formatAliases st token q else q
    (st, formatWithSpaces st.cfg token q)

/-- One iteration of the token loop. -/
def fmtStep (st : FmtState) (q : String) : FmtState × String :=
  let p := fmtStepPre st
  fmtDispatch p.1 p.2 q

/-- The cursor-driven loop, fuelled by the (invariant) token count. -/
def runTokensAux : Nat → FmtState → String → FmtState × String
  | 0, st, q => (st, q)
  | fuel + 1, st, q =>
    if st.index < st.tokens.length then
      let p := fmtStep st q
      runTokensAux fuel { p.1 with index := p.1.index + 1 } p.2
    else (st, q)

/-- Run the engine over the state's token list from the start. -/
def runTokens (st : FmtState) : FmtState × String :=
  runTokensAux st.tokens.length st ""

/-- `getFormattedQueryFromTokens`: the loop result with every zero-width
space replaced by an ordinary space. -/
def getFormattedQueryFromTokens (st : FmtState) : FmtState × String :=
  let p := runTokens st
  (p.1, replaceZWS p.2)

/-! ## Post-format pass: comma repositioning (`formatCommaPositions`) -/

/-- The comma-run collection loop `while (lines[i++].match(/.*,$/))
commaLines.push(lines[i])`: starting at `i`, as long as the line at the
cursor ends in a comma, advance and push the following line (out-of-range
reads behave as the empty string).  Returns the collected lines and the
final cursor. -/
def collectCommaRun (lines : List String) : Nat → Nat → List String → List String × Nat
  | 0, i, acc => (acc, i)
  | fuel + 1, i, acc =>
    if endsWithComma ((lines.get? i).getD "") then
      collectCommaRun lines fuel (i + 1) (acc ++ [(lines.get? (i + 1)).getD ""])
    else (acc, i + 1)

/-- `Array.prototype.map` with the element index (JavaScript `(x, j) =>`). -/
def mapIdxFrom (f : Nat → α → β) : Nat → List α → List β
  | _, [] => []
  | i, a :: as => f i a :: mapIdxFrom f (i + 1) as

/-- One line of the before-mode comma rewrite: every continuation line has
the trailing indent unit of its leading whitespace replaced by the unit
with its last two spaces turned into `, ` (tabs use a four-space unit). -/
def commaBeforeLine (cfg : FormatOptions) (j : Nat) (l : String) : String :=
  if j = 0 then l
  else
    let isTabs := cfg.indent.data.contains '\t'
    let w := l.data.takeWhile jsWs
    let rest := l.data.drop w.length
    if w.isEmpty then l
    else
      let tgt := if isTabs then "\t" else cfg.indent
      let base := if isTabs then "    " else cfg.indent
      let repl :=
        if endsWithStr base "  " then String.mk base.data.dropLast.dropLast ++ ", "
        else base
      let wNew :=
        if endsWithStr (String.mk w) tgt then
          String.mk (w.take (w.length - tgt.length)) ++ repl
        else String.mk w
      wNew ++ String.mk rest

/-- Rewrite one collected comma run per the configured comma position. -/
def processCommaRun (cfg : FormatOptions) (commaLines : List String) : List String :=
  if cfg.commaPosition = CommaPosition.tabular then
    let stripped := commaLines.map fun l =>
      if endsWithComma l then String.mk l.data.dropLast else l
    let m := maxLength stripped
    mapIdxFrom
      (fun j l =>
        if j + 1 < stripped.length then l ++ repeatChar ' ' (m - l.length) ++ ","
        else l)
      0 stripped
  else if cfg.commaPosition = CommaPosition.before then
    let stripped := commaLines.map fun l =>
      if endsWithComma l then String.mk l.data.dropLast else l
    mapIdxFrom (commaBeforeLine cfg) 0 stripped
  else commaLines

/-- The outer line scan of `formatCommaPositions`. -/
def commaPosLoop (cfg : FormatOptions) (lines : List String) :
    Nat → Nat → List String → List String
  | 0, _, acc => acc
  | fuel + 1, i, acc =>
    if h : i < lines.length then
      let line := lines.get ⟨i, h⟩
      if endsWithComma line then
        let p := collectCommaRun lines (lines.length + 1) i [line]
        commaPosLoop cfg lines fuel (p.2 + 1)
          (acc ++ processCommaRun cfg p.1 ++ [(lines.get? p.2).getD ""])
      else commaPosLoop cfg lines fuel (i + 1) (acc ++ [line])
    else acc

def formatCommaPositions (cfg : FormatOptions) (q : String) : String :=
  let lines := splitLines q
  joinLines (commaPosLoop cfg lines (lines.length + 1) 0 [])

/-! ## Post-format pass: alias alignment (`formatAliasPositions`) -/

/-- The `/^\s*SELECT/i` line test. -/
def matchSelect (line : String) : Bool :=
  lcList ((line.data.dropWhile jsWs).take 6) = "select".data

/-- The `/^\s*SELECT\s+.+(?!,$)/i` line test.  The trailing negative
lookahead sits after a greedy `.+` and can always be satisfied by
backtracking, so the effective pattern is `SELECT` followed by at least
one whitespace character and at least one further character. -/
def matchSelectContent (line : String) : Bool :=
  let rest := (line.data.dropWhile jsWs).drop 6
  matchSelect line && rest.length ≥ 2 &&
    (match rest with
     | c :: _ => jsWs c
     | [] => false)

/-- Nonempty and entirely free of whitespace: the `[^\s]+,?$` lookahead
target (a comma is itself a non-whitespace character). -/
def allNonWs (l : List Char) : Bool := !l.isEmpty && l.all fun c => !jsWs c

/-- Whether the list starts with `AS ` case-insensitively (the optional
captured group of the alias split pattern). -/
def matchesASHead (l : List Char) : Bool :=
  match l with
  | a :: s :: sp :: _ =>
    (a = 'A' || a = 'a') && (s = 'S' || s = 's') && sp = ' '
  | _ => false

/-- Find the split position of the alias pattern
`/(?<=[^\s]+) (AS )?(?=[^\s]+,?$)/i`: the leftmost space preceded by a
non-whitespace character such that the rest of the line (optionally after
an `AS `) is a single trailing word.  Returns the position and whether the
`AS ` group participated. -/
def findAliasSplitAux : List Char → Char → Nat → Option (Nat × Bool)
  | [], _, _ => none
  | c :: rest, prev, p =>
    if c = ' ' && !jsWs prev then
      if matchesASHead rest && allNonWs (rest.drop 3) then some (p, true)
      else if allNonWs rest then some (p, false)
      else findAliasSplitAux rest c (p + 1)
    else findAliasSplitAux rest c (p + 1)

def findAliasSplit (l : List Char) : Option (Nat × Bool) :=
  match l with
  | [] => none
  | c :: rest => findAliasSplitAux rest c 1

/-- Split one line into the preceding text, the optional `AS ` slug and
the optional alias (the `line.split` + slug destructuring). -/
def splitAliasLine (line : String) : String × Option String × Option String :=
  match findAliasSplit line.data with
  | none => (line, none, none)
  | some (p, withAS) =>
    let pre := String.mk (line.data.take p)
    let asStr :=
      if withAS then some (String.mk ((line.data.drop (p + 1)).take 3)) else none
    let al := String.mk (line.data.drop (p + (if withAS then 4 else 1)))
    (pre, asStr, some al)

/-- The `replace(/\s*,\s*$/, '')` used before measuring: strip one
trailing comma together with surrounding whitespace, if present. -/
def stripCommaEnd (s : String) : String :=
  let s1 := dropTrailing jsWs s
  if endsWithComma s1 then dropTrailing jsWs (String.mk s1.data.dropLast) else s

/-- Align one collected SELECT-clause run: right-pad every expression to
the run maximum and re-attach the `AS` slug and alias. -/
def processAliasLines (aliasLines : List String) : List String :=
  let splitLns := aliasLines.map splitAliasLine
  let m := maxLength (splitLns.map fun x => stripCommaEnd x.1)
  splitLns.map fun x =>
    match x with
    | (pre, _, none) => pre
    | (pre, asStr, some al) =>
      pre ++ repeatChar ' ' (m + 1 - pre.length) ++ asStr.getD "" ++ al

/-- The outer line scan of `formatAliasPositions`. -/
def aliasPosLoop (lines : List String) : Nat → Nat → List String → List String
  | 0, _, acc => acc
  | fuel + 1, i, acc =>
    if h : i < lines.length then
      let line := lines.get ⟨i, h⟩
      if matchSelect line then
        if endsWithComma line then
          let p := collectCommaRun lines (lines.length + 1) i [line]
          aliasPosLoop lines fuel (p.2 + 1)
            (acc ++ processAliasLines p.1 ++ [(lines.get? p.2).getD ""])
        else
          let acc := acc ++ [line]
          if matchSelectContent line then aliasPosLoop lines fuel (i + 1) acc
          else
            let i1 := i + 1
            let first := (lines.get? i1).getD ""
            let p := collectCommaRun lines (lines.length + 1) i1 [first]
            aliasPosLoop lines fuel (p.2 + 1)
              (acc ++ processAliasLines p.1 ++ [(lines.get? p.2).getD ""])
      else aliasPosLoop lines fuel (i + 1) (acc ++ [line])
    else acc

def formatAliasPositions (q : String) : String :=
  let lines := splitLines q
  joinLines (aliasPosLoop lines (lines.length + 1) 0 [])

/-! ## The pipeline (`format`, `postFormat`) -/

def postFormat (cfg : FormatOptions) (q : String) : String :=
  let q := if cfg.tabulateAlias then formatAliasPositions q else q
  if cfg.commaPosition ≠ CommaPosition.after then formatCommaPositions cfg q else q

/-- The final cleanup of `format`: strip leading newlines
(`replace(/^\n*/u, '')`) and trailing whitespace (`trimEnd()`). -/
def finalizeQuery (s : String) : String :=
  jsTrimEnd (dropLeading (fun c => c = '\n') s)

/-- The engine run, exposing the final state (for the token-mutation
claims): a fresh formatter state over the given token sequence. -/
def runEngine (cfg : FormatOptions) (tokens : List Token) : FmtState × String :=
  runTokens { cfg := cfg, params := cfg.params, tokens := tokens }

/-- `format` from the token sequence on: engine, zero-width-space
replacement, post-format passes, final cleanup. -/
def formatTokens (cfg : FormatOptions) (tokens : List Token) : String :=
  finalizeQuery (postFormat cfg
    (getFormattedQueryFromTokens { cfg := cfg, params := cfg.params, tokens := tokens }).2)

/-- Modelled from the spec: the missing Tokenizer (§4.1), restricted to
inputs made of whitespace-separated chunks (words, numbers, simple
operators).  Each token records the exact original leading whitespace. -/
def classifyWord (w : String) : TokenType :=
  if ciEq w "SELECT" || ciEq w "FROM" || ciEq w "WHERE" then RESERVED_COMMAND
  else if ciEq w "BETWEEN" || ciEq w "AS" then RESERVED_KEYWORD
  else if ciEq w "AND" || ciEq w "OR" then RESERVED_LOGICAL_OPERATOR
  else if w = ";" || w = "*" then OPERATOR
  else if !w.isEmpty && w.data.all Char.isDigit then NUMBER
  else WORD

def tokenizeAux : Nat → List Char → List Token
  | 0, _ => []
  | fuel + 1, l =>
    let ws := l.takeWhile jsWs
    let rest := l.dropWhile jsWs
    let word := rest.takeWhile fun c => !jsWs c
    if word.isEmpty then []
    else
      { value := String.mk word, type := classifyWord (String.mk word),
        whitespaceBefore := String.mk ws } :: tokenizeAux fuel (rest.drop word.length)

/-- Modelled from the spec: `tokenize(sql)` (§4.1). -/
def tokenize (s : String) : List Token := tokenizeAux s.data.length s.data

/-- Modelled from the spec: the primary entry point
`format(sqlText, config) → string` (§6), over the spec-modelled tokenizer. -/
def format (cfg : FormatOptions) (query : String) : String :=
  formatTokens cfg (tokenize query)

/-! ## Concrete fixtures used by the claim theorems -/

/-- A token with a single space of original leading whitespace. -/
def mkTok (v : String) (ty : TokenType) : Token :=
  { value := v, type := ty, whitespaceBefore := " " }

/-- Tokens of `select a from t where case when 1 then 2 else 3 end`. -/
def whereCaseTokens : List Token :=
  [mkTok "select" RESERVED_COMMAND, mkTok "a" WORD,
   mkTok "from" RESERVED_COMMAND, mkTok "t" WORD,
   mkTok "where" RESERVED_COMMAND,
   mkTok "case" BLOCK_START, mkTok "when" RESERVED_KEYWORD, mkTok "1" NUMBER,
   mkTok "then" RESERVED_KEYWORD, mkTok "2" NUMBER,
   mkTok "else" RESERVED_KEYWORD, mkTok "3" NUMBER, mkTok "end" BLOCK_END]

/-- Tokens of `select a, f(g(x, b), c), d`: two top-level commas, one comma
nested two parenthesis levels deep and one nested a single level deep. -/
def nestedParenTokens : List Token :=
  [mkTok "select" RESERVED_COMMAND, mkTok "a" WORD, mkTok "," OPERATOR,
   mkTok "f" WORD, mkTok "(" BLOCK_START, mkTok "g" WORD, mkTok "(" BLOCK_START,
   mkTok "x" WORD, mkTok "," OPERATOR, mkTok "b" WORD, mkTok ")" BLOCK_END,
   mkTok "," OPERATOR, mkTok "c" WORD, mkTok ")" BLOCK_END,
   mkTok "," OPERATOR, mkTok "d" WORD]

/-- Tokens of `select 1 ; select 2`. -/
def twoStatementTokens : List Token :=
  [mkTok "select" RESERVED_COMMAND, mkTok "1" NUMBER, mkTok ";" OPERATOR,
   mkTok "select" RESERVED_COMMAND, mkTok "2" NUMBER]

/-- Newline mode `never`, all other options default. -/
def cfgNever : FormatOptions := { newline := NewlineOpt.never }

/-- Numeric newline threshold 3 with an effectively unlimited line width. -/
def cfgCount3 : FormatOptions := { newline := NewlineOpt.itemCount 3, lineWidth := 9999 }

/-- Ten-space left keyword alignment, all other options default. -/
def cfgTenSpace : FormatOptions := { keywordPosition := KeywordMode.tenSpaceLeft }

/-- Width-based newline mode with an 11-column budget. -/
def cfgWidth11 : FormatOptions :=
  { newline := NewlineOpt.lineWidth, lineWidth := 11, aliasAs := AliasMode.never }

/-- `specItemCount` follows the specification words for the item count of
§4.6: 1 plus the number of top-level commas, with nesting tracked by a
paren-depth counter (to be compared with `clauseNumItems`, the translation
of the source, which uses a boolean flag). -/
def specItemCount (nextTokens : List Token) : Nat :=
  (nextTokens.foldl
    (fun acc t =>
      if t.value = "," && acc.2 = 0 then (acc.1 + 1, acc.2)
      else if t.type = BLOCK_START then (acc.1, acc.2 + 1)
      else if t.type = BLOCK_END then (acc.1, acc.2 - 1)
      else acc)
    ((1 : Nat), (0 : Nat))).1

/-- Whether the string starts with a newline character. -/
def startsWithNl (s : String) : Bool := s.data.head? = some '\n'

/-- Whether the string ends with a JavaScript-whitespace character. -/
def hasTrailingJsWs (s : String) : Bool :=
  match lastChar s with
  | some c => jsWs c
  | none => false

/-- No zero-width space occurs in the string. -/
def noZWS (s : String) : Bool := s.data.all fun c => decide (c ≠ ZWSc)

/-! ## Claim C1 — idempotence of format -/

/-- Claim C1: formatting is not idempotent.  With width-based newline mode
and an 11-column budget, the inline width measured by `checkNewline`
includes the command token's original leading whitespace, so the first
format of `   select aaa from t` (13 inline columns) wraps the SELECT
clause, while re-formatting its own output (10 inline columns) does not. -/
theorem format_not_idempotent :
    format cfgWidth11 "   select aaa from t" = "SELECT\n  aaa\nFROM t" ∧
    format cfgWidth11 "SELECT\n  aaa\nFROM t" = "SELECT aaa\nFROM t" ∧
    format cfgWidth11 (format cfgWidth11 "   select aaa from t") ≠
      format cfgWidth11 "   select aaa from t" :=
  ⟨rfl, rfl, by decide⟩

/-! ## Claim C2 — newline mode `never` -/

/-- Claim C2, counterexample: the CASE exception of newline mode `never`
only fires inside a SELECT clause.  For the WHERE clause of
`select a from t where case when 1 then 2 else 3 end` the span contains a
CASE block, yet the heuristic decides not to wrap (the final
`currentNewline` after the run is the WHERE clause's cached decision) and
the whole clause is rendered on a single line. -/
theorem never_mode_case_not_wrapped :
    (nextClauseTokens whereCaseTokens 4).any isCaseStart = true ∧
    (runEngine cfgNever whereCaseTokens).1.currentNewline = false ∧
    formatTokens cfgNever whereCaseTokens =
      "SELECT a\nFROM t\nWHERE CASE WHEN 1 THEN 2 ELSE 3 END" :=
  ⟨rfl, rfl, rfl⟩

/-- Claim C2 (amended): with newline mode `never` the heuristic decides not
to wrap, except that a clause whose owning command is SELECT and whose span
contains a CASE block (a BLOCK_START token longer than one character)
always wraps. -/
theorem checkNewline_never_mode (st : FmtState) (index : Nat)
    (h : st.cfg.newline = NewlineOpt.never) :
    checkNewline st index =
      (st.withinSelect && (nextClauseTokens st.tokens index).any isCaseStart) := by
  unfold checkNewline
  rw [h]
  cases hg : st.withinSelect && (nextClauseTokens st.tokens index).any isCaseStart <;>
    simp [hg]

/-- Witness for the amended C2 theorem: the WHERE-clause state of the
`whereCaseTokens` run, where the decision is `false`. -/
theorem checkNewline_never_mode_witness :
    checkNewline { cfg := cfgNever, tokens := whereCaseTokens, index := 4 } 4 =
      (({ cfg := cfgNever, tokens := whereCaseTokens, index := 4 } : FmtState).withinSelect &&
        (nextClauseTokens whereCaseTokens 4).any isCaseStart) :=
  checkNewline_never_mode { cfg := cfgNever, tokens := whereCaseTokens, index := 4 } 4 rfl

/-! ## Claim C3 — numeric newline threshold -/

/-- Claim C3, counterexample: the source counts items with a boolean
in-paren flag, not a paren-depth counter.  In
`select a, f(g(x, b), c), d` the comma before `c` sits inside the outer
parentheses but follows a nested BLOCK_END, so the code counts 4 items and
wraps at threshold 3, while the claim (depth-counted items = 3, inline
width 26 within the 9999 budget) predicts no wrap. -/
theorem itemCount_mode_nested_paren_miscount :
    specItemCount (nextClauseTokens nestedParenTokens 0) = 3 ∧
    clauseNumItems (nextClauseTokens nestedParenTokens 0) = 4 ∧
    clauseInlineWidth nestedParenTokens 0 (nextClauseTokens nestedParenTokens 0) = 26 ∧
    (runEngine cfgCount3 nestedParenTokens).1.currentNewline ≠
      (decide (specItemCount (nextClauseTokens nestedParenTokens 0) > 3) ||
        decide (clauseInlineWidth nestedParenTokens 0 (nextClauseTokens nestedParenTokens 0) >
          cfgCount3.lineWidth)) :=
  ⟨rfl, rfl, rfl, by decide⟩

/-- Claim C3 (amended): with a numeric threshold `n` the heuristic wraps
iff the SELECT/CASE guard fires, or the flag-counted item count (commas
counted whenever the last paren token seen was a BLOCK_END) exceeds `n`,
or the inline width exceeds the budget. -/
theorem checkNewline_itemCount_mode (st : FmtState) (index : Nat) (n : Nat)
    (h : st.cfg.newline = NewlineOpt.itemCount n) :
    checkNewline st index =
      ((st.withinSelect && (nextClauseTokens st.tokens index).any isCaseStart) ||
        decide (clauseNumItems (nextClauseTokens st.tokens index) > n) ||
        decide (clauseInlineWidth st.tokens index (nextClauseTokens st.tokens index) >
          st.cfg.lineWidth)) := by
  unfold checkNewline
  rw [h]
  cases hg : st.withinSelect && (nextClauseTokens st.tokens index).any isCaseStart <;>
    simp [hg]

/-- Witness for the amended C3 theorem: the SELECT clause of
`nestedParenTokens` at threshold 3. -/
theorem checkNewline_itemCount_mode_witness :
    checkNewline { cfg := cfgCount3, tokens := nestedParenTokens, index := 0 } 0 =
      ((({ cfg := cfgCount3, tokens := nestedParenTokens, index := 0 } : FmtState).withinSelect &&
          (nextClauseTokens nestedParenTokens 0).any isCaseStart) ||
        decide (clauseNumItems (nextClauseTokens nestedParenTokens 0) > 3) ||
        decide (clauseInlineWidth nestedParenTokens 0 (nextClauseTokens nestedParenTokens 0) >
          cfgCount3.lineWidth)) :=
  checkNewline_itemCount_mode { cfg := cfgCount3, tokens := nestedParenTokens, index := 0 } 0 3 rfl

/-! ## Claim C5 — keyword casing on emission -/

/-- Claim C5: `show` emits every reserved and block token upper-cased when
`uppercase` is set and lower-cased otherwise, and leaves the text of every
other token untouched. -/
theorem showTok_casing (cfg : FormatOptions) (t : Token) :
    ((isReserved t || t.type = BLOCK_START || t.type = BLOCK_END) = true →
      showTok cfg t = (if cfg.uppercase then jsToUpper t.value else jsToLower t.value)) ∧
    ((isReserved t || t.type = BLOCK_START || t.type = BLOCK_END) = false →
      showTok cfg t = t.value) := by
  constructor <;> intro h <;> simp [showTok, h]

/-- Witness for C5: a reserved command under the default (upper-casing)
configuration, and a plain word left untouched. -/
theorem showTok_casing_witness :
    showTok {} (mkTok "select" RESERVED_COMMAND) =
      (if ({} : FormatOptions).uppercase then jsToUpper (mkTok "select" RESERVED_COMMAND).value
        else jsToLower (mkTok "select" RESERVED_COMMAND).value) ∧
    showTok {} (mkTok "tbl" WORD) = (mkTok "tbl" WORD).value :=
  ⟨(showTok_casing {} (mkTok "select" RESERVED_COMMAND)).1 (by decide),
   (showTok_casing {} (mkTok "tbl" WORD)).2 (by decide)⟩

/-! ## Claim C6 — BETWEEN … AND stays inline -/

/-- The state at the AND token of `… a between 1 and …`. -/
def betweenState : FmtState :=
  { cfg := {},
    tokens := [mkTok "between" RESERVED_KEYWORD, mkTok "1" NUMBER,
               mkTok "and" RESERVED_LOGICAL_OPERATOR],
    index := 2 }

/-- Claim C6: an AND whose look-behind by two tokens is BETWEEN is emitted
as an infix operator with a space on each side and no line break, and
`format("select * from t where a between 1 and 2")` keeps
`BETWEEN 1 AND 2` on a single line. -/
theorem betweenAnd_inline :
    (∀ (st : FmtState) (t : Token) (q : String),
      isTokenAND (some t) = true →
      isTokenBETWEEN (st.tokenLookBehind 2) = true →
      formatLogicalOperator st t q = (st, q ++ showTok st.cfg t ++ " ")) ∧
    format {} "select * from t where a between 1 and 2" =
      "SELECT\n  *\nFROM\n  t\nWHERE\n  a BETWEEN 1 AND 2" := by
  constructor
  · intro st t q h1 h2
    simp [formatLogicalOperator, h1, h2, formatWithSpaces]
  · rfl

/-- Witness for C6: the AND of `between 1 and` is rendered `1 AND `. -/
theorem betweenAnd_inline_witness :
    formatLogicalOperator betweenState (mkTok "and" RESERVED_LOGICAL_OPERATOR) "1 " =
      (betweenState, "1 " ++ showTok betweenState.cfg (mkTok "and" RESERVED_LOGICAL_OPERATOR) ++ " ") :=
  betweenAnd_inline.1 betweenState (mkTok "and" RESERVED_LOGICAL_OPERATOR) "1 "
    (by decide) (by decide)

/-! ## Claim C7 — blank lines after a statement separator -/

/-- Claim C7, counterexample: with `linesBetweenQueries = 1` the separator
is followed by two newline characters, i.e. exactly one blank line before
the next statement's first token, not two. -/
theorem separator_one_blank_line :
    ({} : FormatOptions).linesBetweenQueries = 1 ∧
    splitLines (formatTokens {} twoStatementTokens) =
      ["SELECT", "  1;", "", "SELECT", "  2"] ∧
    (splitLines (formatTokens {} twoStatementTokens)).count "" = 1 :=
  ⟨rfl, rfl, rfl⟩

/-- Claim C7 (amended): the separator is followed by exactly
`max(linesBetweenQueries, 1) + 1` newline characters — that many blank
lines less one — and with `linesBetweenQueries = 1` exactly one blank line
separates the two statements. -/
theorem separator_blank_lines :
    (∀ (st : FmtState) (t : Token) (q : String),
      ∃ p, (formatQuerySeparator st t q).2 =
        p ++ showTok st.cfg t ++ repeatStr "\n" (max st.cfg.linesBetweenQueries 1 + 1)) ∧
    splitLines (formatTokens {} twoStatementTokens) =
      ["SELECT", "  1;", "", "SELECT", "  2"] := by
  constructor
  · intro st t q
    exact ⟨_, rfl⟩
  · rfl

/-! ## Claim C9 — idempotence of the post-format passes -/

/-- Claim C9: the alias-alignment pass is not idempotent.  On the aligned
text it itself produced from `SELECT / a AS x, / bb AS yy / FROM / t`, the
padded `a  AS` no longer splits at its `AS` (the split pattern absorbs it
into the expression), the run maximum grows to 7, and the second
application re-pads `bb AS yy` to `bb    AS yy`. -/
theorem aliasPass_not_idempotent :
    formatAliasPositions "SELECT\n  a AS x,\n  bb AS yy\nFROM\n  t" =
      "SELECT\n  a  AS x,\n  bb AS yy\nFROM\n  t" ∧
    formatAliasPositions "SELECT\n  a  AS x,\n  bb AS yy\nFROM\n  t" ≠
      "SELECT\n  a  AS x,\n  bb AS yy\nFROM\n  t" :=
  ⟨rfl, by decide⟩

/-! ## Claim C8 — token immutability -/

/-- Ten-space padding rewrites only the token value, never its kind. -/
theorem tenSpacedToken_type (cfg : FormatOptions) (t : Token) :
    (tenSpacedToken cfg t).type = t.type := by
  unfold tenSpacedToken
  split <;> rfl

/-- Overwriting a list slot with a token of the same kind leaves the kind
sequence unchanged. -/
theorem map_type_set (l : List Token) (i : Nat) (a : Token)
    (h : ∀ b, l.get? i = some b → a.type = b.type) :
    (l.set i a).map (·.type) = l.map (·.type) := by
  induction l generalizing i with
  | nil => rfl
  | cons hd tl ih =>
    cases i with
    | zero => simp [List.set, h hd rfl]
    | succ n =>
      simp only [List.set, List.map]
      rw [ih n fun b hb => h b hb]

theorem formatCommand_tokens (st : FmtState) (t : Token) (q : String) :
    (formatCommand st t q).1.tokens = st.tokens := by
  unfold formatCommand
  dsimp only
  split_ifs <;> rfl

theorem formatBinaryCommand_tokens (st : FmtState) (t : Token) (q : String) :
    (formatBinaryCommand st t q).1.tokens = st.tokens := by
  unfold formatBinaryCommand
  dsimp only
  split_ifs <;> rfl

theorem formatLogicalOperator_tokens (st : FmtState) (t : Token) (q : String) :
    (formatLogicalOperator st t q).1.tokens = st.tokens := by
  unfold formatLogicalOperator
  dsimp only
  split_ifs <;> rfl

theorem formatBlockStart_tokens (st : FmtState) (t : Token) (q : String) :
    (formatBlockStart st t q).1.tokens = st.tokens := by
  unfold formatBlockStart
  dsimp only
  split_ifs <;> rfl

theorem formatBlockEnd_tokens (st : FmtState) (t : Token) (q : String) :
    (formatBlockEnd st t q).1.tokens = st.tokens := by
  unfold formatBlockEnd
  dsimp only
  split_ifs <;> rfl

theorem formatPlaceholder_tokens (st : FmtState) (t : Token) (q : String) :
    (formatPlaceholder st t q).1.tokens = st.tokens := rfl

theorem formatQuerySeparator_tokens (st : FmtState) (t : Token) (q : String) :
    (formatQuerySeparator st t q).1.tokens = st.tokens := rfl

theorem formatOperator_tokens (st : FmtState) (t : Token) (q : String) :
    (formatOperator st t q).1.tokens = st.tokens := by
  unfold formatOperator
  split_ifs <;> rfl

/-- The dispatch never touches the stored token sequence. -/
theorem fmtDispatch_tokens (st : FmtState) (token : Token) (q : String) :
    (fmtDispatch st token q).1.tokens = st.tokens := by
  unfold fmtDispatch
  split <;>
    first
    | rfl
    | simp only [formatCommand_tokens, formatBinaryCommand_tokens,
        formatLogicalOperator_tokens, formatBlockStart_tokens, formatBlockEnd_tokens,
        formatPlaceholder_tokens, formatOperator_tokens]

/-- The pre-processing may rewrite a stored token's value in place but
preserves the kind sequence. -/
theorem fmtStepPre_types (st : FmtState) :
    ((fmtStepPre st).1.tokens).map (·.type) = st.tokens.map (·.type) := by
  unfold fmtStepPre
  dsimp only
  split_ifs
  all_goals try rfl
  all_goals
    refine map_type_set _ _ _ fun b hb => ?_
    rw [List.get?_eq_getElem?] at hb
    simp [hb, tenSpacedToken_type]

theorem fmtStep_types (st : FmtState) (q : String) :
    ((fmtStep st q).1.tokens).map (·.type) = st.tokens.map (·.type) := by
  unfold fmtStep
  dsimp only
  rw [fmtDispatch_tokens]
  exact fmtStepPre_types st

theorem runTokensAux_types (fuel : Nat) :
    ∀ (st : FmtState) (q : String),
      ((runTokensAux fuel st q).1.tokens).map (·.type) = st.tokens.map (·.type) := by
  induction fuel with
  | zero => intro st q; rfl
  | succ n ih =>
    intro st q
    unfold runTokensAux
    split
    · rw [ih]
      exact fmtStep_types st q
    · rfl

/-- Claim C8, counterexample: the engine rewrites a stored token in place.
In ten-space mode the value of the SELECT token held in the token sequence
is padded with zero-width spaces during the run, so the sequence no longer
carries the original values. -/
theorem engine_mutates_token_value :
    ((runEngine cfgTenSpace [mkTok "select" RESERVED_COMMAND]).1.tokens).map (·.value) =
      ["select" ++ ZWS ++ ZWS ++ ZWS] ∧
    ((runEngine cfgTenSpace [mkTok "select" RESERVED_COMMAND]).1.tokens).map (·.value) ≠
      [mkTok "select" RESERVED_COMMAND].map (·.value) :=
  ⟨rfl, by decide⟩

/-- Claim C8 (amended): the engine may rewrite a stored token's value in
place (ten-space padding), but no operation of the engine ever changes a
token's kind: the kind sequence after a full run equals the input kind
sequence, for every configuration and token list. -/
theorem engine_preserves_token_types (cfg : FormatOptions) (tokens : List Token) :
    ((runEngine cfg tokens).1.tokens).map (·.type) = tokens.map (·.type) :=
  runTokensAux_types _ _ _

/-! ## Claim C4 — output contract of format -/

/-- The head of `dropWhile p` never satisfies `p`. -/
theorem dropWhile_head?_false (p : Char → Bool) (l : List Char) (c : Char)
    (h : (l.dropWhile p).head? = some c) : p c = false := by
  induction l with
  | nil => simp [List.dropWhile] at h
  | cons hd tl ih =>
    rw [List.dropWhile_cons] at h
    split at h
    · exact ih h
    · next hp =>
      cases h
      simpa using hp

/-- Trimming a suffix yields a prefix of the original character list. -/
theorem dropTrailing_data_prefix (p : Char → Bool) (s : String) :
    (dropTrailing p s).data <+: s.data := by
  have hsuf : (s.data.reverse.dropWhile p) <:+ s.data.reverse := List.dropWhile_suffix p
  have := List.reverse_prefix.mpr hsuf
  rwa [List.reverse_reverse] at this

/-- A nonempty prefix starts with the same character. -/
theorem prefix_head?_eq (l₁ l₂ : List Char) (h : l₁ <+: l₂) (c : Char)
    (hc : l₁.head? = some c) : l₂.head? = some c := by
  obtain ⟨t, rfl⟩ := h
  cases l₁ with
  | nil => cases hc
  | cons a l => cases hc; rfl

/-- The last character left by `dropTrailing p` never satisfies `p`. -/
theorem lastChar_dropTrailing (p : Char → Bool) (s : String) (c : Char)
    (h : lastChar (dropTrailing p s) = some c) : p c = false := by
  unfold lastChar dropTrailing at h
  rw [List.getLast?_reverse] at h
  exact dropWhile_head?_false p s.data.reverse c h

/-- The final cleanup leaves no leading newline. -/
theorem finalizeQuery_no_leading_newline (s : String) :
    startsWithNl (finalizeQuery s) = false := by
  unfold startsWithNl
  rw [decide_eq_false_iff_not]
  intro h
  have hpre := dropTrailing_data_prefix jsWs (dropLeading (fun c => c = '\n') s)
  have h2 := prefix_head?_eq _ _ hpre _ h
  have h3 := dropWhile_head?_false (fun c => decide (c = '\n')) s.data '\n' h2
  simp at h3

/-- The final cleanup leaves no trailing whitespace. -/
theorem finalizeQuery_no_trailing_ws (s : String) :
    hasTrailingJsWs (finalizeQuery s) = false := by
  unfold hasTrailingJsWs
  cases hl : lastChar (finalizeQuery s) with
  | none => rfl
  | some c => exact lastChar_dropTrailing jsWs _ c hl

/-- Claim C4: for every configuration and token sequence, the string
returned by format starts with no newline (leading blank lines stripped)
and ends with no whitespace character — in particular the core appends no
trailing newline. -/
theorem format_output_trimmed (cfg : FormatOptions) (tokens : List Token) :
    startsWithNl (formatTokens cfg tokens) = false ∧
    hasTrailingJsWs (formatTokens cfg tokens) = false :=
  ⟨finalizeQuery_no_leading_newline _, finalizeQuery_no_trailing_ws _⟩

/-! ## Claim C10 — no zero-width space leaves the engine -/

/-- No zero-width space among the characters. -/
def NoZChars (l : List Char) : Prop := ∀ c ∈ l, c ≠ ZWSc

/-- No zero-width space in the string (propositional form of `noZWS`). -/
def NoZ (s : String) : Prop := NoZChars s.data

theorem noZWS_eq_true_iff (s : String) : noZWS s = true ↔ NoZ s := by
  simp [noZWS, NoZ, NoZChars, List.all_eq_true]

theorem NoZChars.sub {a b : List Char} (h : List.Sublist a b) (hb : NoZChars b) :
    NoZChars a :=
  fun c hc => hb c (h.subset hc)

theorem NoZChars.appendChars {a b : List Char} (ha : NoZChars a) (hb : NoZChars b) :
    NoZChars (a ++ b) := by
  intro c hc
  rcases List.mem_append.mp hc with h | h
  · exact ha c h
  · exact hb c h

theorem NoZ.append {a b : String} (ha : NoZ a) (hb : NoZ b) : NoZ (a ++ b) := by
  unfold NoZ
  rw [String.data_append]
  exact ha.appendChars hb

theorem NoZ.mk {l : List Char} (h : NoZChars l) : NoZ (String.mk l) := h

theorem NoZ.data {s : String} (h : NoZ s) : NoZChars s.data := h

theorem NoZ_reverse {l : List Char} (h : NoZChars l) : NoZChars l.reverse := by
  intro c hc
  exact h c (List.mem_reverse.mp hc)

theorem NoZ_dropTrailing {p : Char → Bool} {s : String} (h : NoZ s) :
    NoZ (dropTrailing p s) :=
  NoZ.mk (NoZ_reverse (NoZChars.sub (List.dropWhile_sublist p) (NoZ_reverse h)))

theorem NoZ_dropLeading {p : Char → Bool} {s : String} (h : NoZ s) :
    NoZ (dropLeading p s) :=
  NoZ.mk (NoZChars.sub (List.dropWhile_sublist p) h)

theorem NoZ_finalizeQuery {s : String} (h : NoZ s) : NoZ (finalizeQuery s) :=
  NoZ_dropTrailing (NoZ_dropLeading h)

theorem NoZ_replaceZWS (s : String) : NoZ (replaceZWS s) := by
  intro c hc
  simp only [replaceZWS] at hc
  rcases List.mem_map.mp hc with ⟨a, _, rfl⟩
  by_cases h : a = ZWSc
  · rw [if_pos h]
    decide
  · rw [if_neg h]
    exact h

theorem NoZ_repeatChar {c : Char} (h : c ≠ ZWSc) (n : Nat) :
    NoZ (repeatChar c n) := by
  intro d hd
  rw [List.eq_of_mem_replicate hd]
  exact h

/-- Every line produced by `splitCharList` draws its characters from the
original list. -/
theorem splitCharList_chars (sep : Char) :
    ∀ (xs : List Char) (l : List Char), l ∈ splitCharList sep xs →
      ∀ c ∈ l, c ∈ xs := by
  intro xs
  induction xs with
  | nil =>
    intro l hl c hc
    simp [splitCharList] at hl
    subst hl
    cases hc
  | cons x rest ih =>
    intro l hl c hc
    simp only [splitCharList] at hl
    by_cases hx : x = sep
    · rw [if_pos hx] at hl
      rcases List.mem_cons.mp hl with rfl | hl
      · cases hc
      · exact List.mem_cons_of_mem x (ih l hl c hc)
    · rw [if_neg hx] at hl
      cases hsp : splitCharList sep rest with
      | nil =>
        simp only [hsp] at hl
        rcases List.mem_singleton.mp hl with rfl
        rcases List.mem_singleton.mp hc with rfl
        exact List.mem_cons_self c rest
      | cons hline t =>
        simp only [hsp] at hl
        rcases List.mem_cons.mp hl with rfl | hl
        · rcases List.mem_cons.mp hc with rfl | hc2
          · exact List.mem_cons_self c rest
          · refine List.mem_cons_of_mem x (ih hline ?_ c hc2)
            rw [hsp]
            exact List.mem_cons_self hline t
        · refine List.mem_cons_of_mem x (ih l ?_ c hc)
          rw [hsp]
          exact List.mem_cons_of_mem hline hl

theorem NoZ_splitLines {s : String} (h : NoZ s) :
    ∀ l ∈ splitLines s, NoZ l := by
  intro l hl
  rcases List.mem_map.mp hl with ⟨cs, hcs, rfl⟩
  exact fun c hc => h c (splitCharList_chars '\n' s.data cs hcs c hc)

theorem NoZ_joinLines {lines : List String} (h : ∀ l ∈ lines, NoZ l) :
    NoZ (joinLines lines) := by
  induction lines with
  | nil => intro c hc; cases hc
  | cons a tl ih =>
    cases tl with
    | nil => exact h a (List.mem_cons_self a [])
    | cons b tl2 =>
      show NoZ (a ++ "\n" ++ joinLines (b :: tl2))
      refine NoZ.append (NoZ.append (h a (List.mem_cons_self _ _)) ?_) ?_
      · intro c hc
        rcases List.mem_singleton.mp hc with rfl
        decide
      · exact ih fun l hl => h l (List.mem_cons_of_mem a hl)

theorem NoZ_empty : NoZ "" := by
  intro c hc
  cases hc

theorem NoZ_of_suffix {a b : String} (h : endsWithStr a b = true) (ha : NoZ a) :
    NoZ b :=
  NoZChars.sub (List.isSuffixOf_iff_suffix.mp h).sublist ha

theorem mapIdxFrom_mem {f : Nat → α → β} :
    ∀ {i : Nat} {l : List α} {b : β},
      b ∈ mapIdxFrom f i l → ∃ j a, a ∈ l ∧ b = f j a := by
  intro i l
  induction l generalizing i with
  | nil => intro b hb; cases hb
  | cons hd tl ih =>
    intro b hb
    rcases List.mem_cons.mp hb with rfl | hb
    · exact ⟨i, hd, List.mem_cons_self _ _, rfl⟩
    · rcases ih hb with ⟨j, a, ha, rfl⟩
      exact ⟨j, a, List.mem_cons_of_mem _ ha, rfl⟩

/-- Stripping a trailing comma preserves zero-width-space freedom. -/
theorem NoZ_stripComma {l : String} (h : NoZ l) :
    NoZ (if endsWithComma l then String.mk l.data.dropLast else l) := by
  split
  · exact NoZ.mk (NoZChars.sub (List.dropLast_sublist _) h)
  · exact h

/-- Bridge from the computable `noZWS` check, used for literal strings. -/
theorem NoZ_of_noZWS (s : String) (h : noZWS s = true) : NoZ s :=
  (noZWS_eq_true_iff s).mp h

/-- The shape of the before-mode indentation rewrite: the replacement only
fires when the target unit is a suffix of the (zero-width-space free)
leading whitespace, and then inserts characters of the base unit, a comma
and a space. -/
theorem NoZ_replIndent (tgt base : String) (w rest : List Char)
    (hw : NoZ (String.mk w)) (hrest : NoZ (String.mk rest))
    (hbase : endsWithStr (String.mk w) tgt = true → NoZ base) :
    NoZ ((if endsWithStr (String.mk w) tgt then
            String.mk (w.take (w.length - tgt.length)) ++
              (if endsWithStr base "  " then
                String.mk base.data.dropLast.dropLast ++ ", "
              else base)
          else String.mk w) ++ String.mk rest) := by
  refine NoZ.append ?_ hrest
  by_cases hsuf : endsWithStr (String.mk w) tgt
  · rw [if_pos hsuf]
    have hb := hbase hsuf
    refine NoZ.append (NoZ.mk (NoZChars.sub (List.take_sublist _ _) hw)) ?_
    by_cases hb2 : endsWithStr base "  "
    · rw [if_pos hb2]
      exact NoZ.append
        (NoZ.mk (NoZChars.sub
          ((List.dropLast_sublist _).trans (List.dropLast_sublist _)) hb))
        (NoZ_of_noZWS _ (by decide))
    · rw [if_neg hb2]
      exact hb
  · rw [if_neg hsuf]
    exact hw

/-- The before-mode line rewrite inserts only characters of the line, of
the indent unit when that unit is a suffix of the indentation, commas and
spaces: it preserves zero-width-space freedom for every configuration. -/
theorem NoZ_commaBeforeLine (cfg : FormatOptions) (j : Nat) {l : String} (h : NoZ l) :
    NoZ (commaBeforeLine cfg j l) := by
  unfold commaBeforeLine
  split
  · exact h
  · dsimp only
    split
    · exact h
    · have hw : NoZ (String.mk (l.data.takeWhile jsWs)) :=
        NoZ.mk (NoZChars.sub (List.takeWhile_sublist _) h)
      have hrest : NoZ (String.mk (l.data.drop (l.data.takeWhile jsWs).length)) :=
        NoZ.mk (NoZChars.sub (List.drop_sublist _ _) h)
      refine NoZ_replIndent _ _ _ _ hw hrest ?_
      intro hsuf
      by_cases htab : cfg.indent.data.contains '\t'
      · rw [if_pos htab]
        exact NoZ_of_noZWS _ (by decide)
      · rw [if_neg htab]
        rw [if_neg htab] at hsuf
        exact NoZ_of_suffix hsuf hw

/-- Every line produced by `processCommaRun` is zero-width-space free when
the run lines are. -/
theorem NoZ_processCommaRun {cfg : FormatOptions} {commaLines : List String}
    (h : ∀ l ∈ commaLines, NoZ l) :
    ∀ l ∈ processCommaRun cfg commaLines, NoZ l := by
  intro l hl
  simp only [processCommaRun] at hl
  split at hl
  · rcases mapIdxFrom_mem hl with ⟨j, a, ha, rfl⟩
    rcases List.mem_map.mp ha with ⟨orig, horig, rfl⟩
    have hno := NoZ_stripComma (h orig horig)
    split
    · exact (hno.append (NoZ_repeatChar (by decide) _)).append (NoZ_of_noZWS _ (by decide))
    · exact hno
  · split at hl
    · rcases mapIdxFrom_mem hl with ⟨j, a, ha, rfl⟩
      rcases List.mem_map.mp ha with ⟨orig, horig, rfl⟩
      exact NoZ_commaBeforeLine cfg j (NoZ_stripComma (h orig horig))
    · exact h l hl

/-- The comma-run collector only returns lines of the input or the empty
string. -/
theorem NoZ_collectCommaRun {lines : List String} (hlines : ∀ l ∈ lines, NoZ l) :
    ∀ (fuel i : Nat) (acc : List String), (∀ l ∈ acc, NoZ l) →
      ∀ l ∈ (collectCommaRun lines fuel i acc).1, NoZ l := by
  intro fuel
  induction fuel with
  | zero => intro i acc hacc l hl; exact hacc l hl
  | succ n ih =>
    intro i acc hacc l hl
    simp only [collectCommaRun] at hl
    split at hl
    · refine ih (i + 1) _ ?_ l hl
      intro m hm
      rcases List.mem_append.mp hm with hm | hm
      · exact hacc m hm
      · rcases List.mem_singleton.mp hm with rfl
        cases hg : lines.get? (i + 1) with
        | none => simp [hg]; exact NoZ_empty
        | some line =>
          simp [hg]
          exact hlines line (List.get?_mem hg)
    · exact hacc l hl

/-- Reading a line with the empty-string fallback stays zero-width-space
free. -/
theorem NoZ_getD {lines : List String} (h : ∀ l ∈ lines, NoZ l) (k : Nat) :
    NoZ ((lines.get? k).getD "") := by
  cases hg : lines.get? k with
  | none => exact NoZ_empty
  | some line => exact h line (List.get?_mem hg)

theorem NoZ_commaPosLoop {cfg : FormatOptions} {lines : List String}
    (hlines : ∀ l ∈ lines, NoZ l) :
    ∀ (fuel i : Nat) (acc : List String), (∀ l ∈ acc, NoZ l) →
      ∀ l ∈ commaPosLoop cfg lines fuel i acc, NoZ l := by
  intro fuel
  induction fuel with
  | zero => intro i acc hacc l hl; exact hacc l hl
  | succ n ih =>
    intro i acc hacc l hl
    simp only [commaPosLoop] at hl
    split at hl
    · next hi =>
      split at hl
      · refine ih _ _ ?_ l hl
        intro m hm
        rcases List.mem_append.mp hm with hm | hm
        · rcases List.mem_append.mp hm with hm | hm
          · exact hacc m hm
          · refine NoZ_processCommaRun ?_ m hm
            refine NoZ_collectCommaRun hlines _ _ _ ?_
            intro x hx
            rcases List.mem_singleton.mp hx with rfl
            exact hlines _ (lines.get_mem i hi)
        · rcases List.mem_singleton.mp hm with rfl
          exact NoZ_getD hlines _
      · refine ih _ _ ?_ l hl
        intro m hm
        rcases List.mem_append.mp hm with hm | hm
        · exact hacc m hm
        · rcases List.mem_singleton.mp hm with rfl
          exact hlines _ (lines.get_mem i hi)
    · exact hacc l hl

theorem NoZ_formatCommaPositions {cfg : FormatOptions} {q : String} (h : NoZ q) :
    NoZ (formatCommaPositions cfg q) := by
  refine NoZ_joinLines fun l hl => ?_
  refine NoZ_commaPosLoop (NoZ_splitLines h) _ 0 [] ?_ l hl
  intro m hm
  cases hm

/-- Every line produced by the alias-run alignment is zero-width-space
free when the run lines are: all inserted text is spaces plus substrings
of the lines. -/
theorem NoZ_processAliasLines {aliasLines : List String}
    (h : ∀ l ∈ aliasLines, NoZ l) :
    ∀ l ∈ processAliasLines aliasLines, NoZ l := by
  intro l hl
  simp only [processAliasLines] at hl
  rcases List.mem_map.mp hl with ⟨x, hx, rfl⟩
  rcases List.mem_map.mp hx with ⟨line, hline, rfl⟩
  have hnz := h line hline
  cases hsp : findAliasSplit line.data with
  | none =>
    simp only [splitAliasLine, hsp]
    exact hnz
  | some pw =>
    obtain ⟨p, withAS⟩ := pw
    simp only [splitAliasLine, hsp]
    have htake : NoZ (String.mk (line.data.take p)) :=
      NoZ.mk (NoZChars.sub (List.take_sublist _ _) hnz)
    have hdrop : ∀ k, NoZ (String.mk (line.data.drop k)) := fun k =>
      NoZ.mk (NoZChars.sub (List.drop_sublist _ _) hnz)
    cases withAS
    · exact ((htake.append (NoZ_repeatChar (by decide) _)).append NoZ_empty).append
        (hdrop _)
    · refine ((htake.append (NoZ_repeatChar (by decide) _)).append ?_).append (hdrop _)
      exact NoZ.mk (NoZChars.sub ((List.take_sublist _ _).trans (List.drop_sublist _ _)) hnz)

theorem NoZ_aliasPosLoop {lines : List String} (hlines : ∀ l ∈ lines, NoZ l) :
    ∀ (fuel i : Nat) (acc : List String), (∀ l ∈ acc, NoZ l) →
      ∀ l ∈ aliasPosLoop lines fuel i acc, NoZ l := by
  intro fuel
  induction fuel with
  | zero => intro i acc hacc l hl; exact hacc l hl
  | succ n ih =>
    intro i acc hacc l hl
    simp only [aliasPosLoop] at hl
    split at hl
    · next hi =>
      split at hl
      · split at hl
        · refine ih _ _ ?_ l hl
          intro m hm
          rcases List.mem_append.mp hm with hm | hm
          · rcases List.mem_append.mp hm with hm | hm
            · exact hacc m hm
            · refine NoZ_processAliasLines ?_ m hm
              refine NoZ_collectCommaRun hlines _ _ _ ?_
              intro x hx
              rcases List.mem_singleton.mp hx with rfl
              exact hlines _ (lines.get_mem i hi)
          · rcases List.mem_singleton.mp hm with rfl
            exact NoZ_getD hlines _
        · split at hl
          · refine ih _ _ ?_ l hl
            intro m hm
            rcases List.mem_append.mp hm with hm | hm
            · exact hacc m hm
            · rcases List.mem_singleton.mp hm with rfl
              exact hlines _ (lines.get_mem i hi)
          · refine ih _ _ ?_ l hl
            intro m hm
            rcases List.mem_append.mp hm with hm | hm
            · rcases List.mem_append.mp hm with hm | hm
              · rcases List.mem_append.mp hm with hm | hm
                · exact hacc m hm
                · rcases List.mem_singleton.mp hm with rfl
                  exact hlines _ (lines.get_mem i hi)
              · refine NoZ_processAliasLines ?_ m hm
                refine NoZ_collectCommaRun hlines _ _ _ ?_
                intro x hx
                rcases List.mem_singleton.mp hx with rfl
                exact NoZ_getD hlines _
            · rcases List.mem_singleton.mp hm with rfl
              exact NoZ_getD hlines _
      · refine ih _ _ ?_ l hl
        intro m hm
        rcases List.mem_append.mp hm with hm | hm
        · exact hacc m hm
        · rcases List.mem_singleton.mp hm with rfl
          exact hlines _ (lines.get_mem i hi)
    · exact hacc l hl

theorem NoZ_formatAliasPositions {q : String} (h : NoZ q) :
    NoZ (formatAliasPositions q) := by
  refine NoZ_joinLines fun l hl => ?_
  refine NoZ_aliasPosLoop (NoZ_splitLines h) _ 0 [] ?_ l hl
  intro m hm
  cases hm

theorem NoZ_postFormat {cfg : FormatOptions} {q : String} (h : NoZ q) :
    NoZ (postFormat cfg q) := by
  have h1 : NoZ (if cfg.tabulateAlias then formatAliasPositions q else q) := by
    split
    · exact NoZ_formatAliasPositions h
    · exact h
  show NoZ (if cfg.commaPosition ≠ CommaPosition.after
      then formatCommaPositions cfg (if cfg.tabulateAlias then formatAliasPositions q else q)
      else (if cfg.tabulateAlias then formatAliasPositions q else q))
  by_cases hc : cfg.commaPosition ≠ CommaPosition.after
  · rw [if_pos hc]
    exact NoZ_formatCommaPositions h1
  · rw [if_neg hc]
    exact h1

/-- Claim C10: the string returned by format contains no zero-width space
(U+200B): the engine replaces every internally-introduced zero-width space
by an ordinary space before its result leaves
`getFormattedQueryFromTokens`, and the post-format passes and final
cleanup preserve that, for every configuration and token sequence. -/
theorem format_no_zws (cfg : FormatOptions) (tokens : List Token) (st : FmtState) :
    noZWS (formatTokens cfg tokens) = true ∧
    noZWS (getFormattedQueryFromTokens st).2 = true := by
  constructor
  · exact (noZWS_eq_true_iff _).mpr
      (NoZ_finalizeQuery (NoZ_postFormat (NoZ_replaceZWS _)))
  · exact (noZWS_eq_true_iff _).mpr (NoZ_replaceZWS _)

end PrettierSql
